import Mathlib

/-!
Verification of the eodhd_data repository (src/spx_history.py, src/eodhd_fetcher.py,
src/download_intraday.py) against its natural-language specification.

Shallow embedding conventions:
  * pandas DataFrames are lists of records; a DataFrame built from an empty record
    list has no columns, so reading a column from it raises KeyError (modelled as
    an Except.error).
  * floats are modelled as Rat (the claims are about exact arithmetic relations,
    not rounding).
  * the US-Eastern calendar date of a bar (df["datetime_us"].dt.date, an external
    timezone-library computation) is carried as the precomputed field Bar.date;
    dates are integers ordered like calendar dates (e.g. 20240607 for 2024-06-07).
-/

/-! ### Model of Python str.split(sep) for a one-character separator -/

/-- Python's s.split("/") on the character list of s: splits at every occurrence,
keeping empty components, and returns [s] when the separator does not occur. -/
def splitOnChar (c : Char) : List Char → List (List Char)
  | [] => [[]]
  | x :: xs =>
    if x = c then [] :: splitOnChar c xs
    else
      match splitOnChar c xs with
      | [] => [[x]]
      | g :: gs => (x :: g) :: gs

theorem splitOnChar_ne_nil (c : Char) (l : List Char) : splitOnChar c l ≠ [] := by
  cases l with
  | nil => simp [splitOnChar]
  | cons x xs =>
    simp only [splitOnChar]
    split
    · simp
    · split <;> simp

/-! ### Model of Python float()

float(str) strips surrounding whitespace, accepts an optional sign, then either
a named special ("inf", "infinity", "nan", case-insensitive) or a finite
decimal numeral: an integer part and/or a fractional part around an optional
".", each a digit run that may use single underscores between digits, followed
by an optional exponent ("e"/"E", optional sign, digit run).  Finite values are
exact rationals here; "inf"/"nan" forms produce the non-finite IEEE values,
carried as their own constructors (ASCII digits and whitespace only; Python
additionally accepts their unicode variants, which do not occur in this data). -/

def digitsToNat (l : List Char) : Nat :=
  l.foldl (fun a c => 10 * a + (c.toNat - 48)) 0

/-- The six ASCII whitespace characters str.strip() removes. -/
def isAsciiWs (c : Char) : Bool :=
  c = ' ' || c = '\t' || c = '\n' || c = '\r' || c = '\x0b' || c = '\x0c'

/-- A digit run with Python's underscore grouping: digits optionally separated
by single underscores, never leading, trailing or doubled. -/
def digitsUS : List Char → Bool
  | [] => false
  | [c] => c.isDigit
  | c :: '_' :: rest => c.isDigit && digitsUS rest
  | c :: rest => c.isDigit && digitsUS rest

/-- Numeric value of a digit run, ignoring grouping underscores. -/
def valUS (l : List Char) : Nat :=
  digitsToNat (l.filter fun c => c ≠ '_')

/-- The mantissa of a finite float literal: digits, or digits on either side of
one ".", at least one digit overall. -/
def parseMantissa (m : List Char) : Option Rat :=
  match splitOnChar '.' m with
  | [ip] => if digitsUS ip then some (valUS ip) else none
  | [ip, fp] =>
    if (ip = [] ∨ digitsUS ip) ∧ (fp = [] ∨ digitsUS fp) ∧ ¬(ip = [] ∧ fp = []) then
      some ((valUS ip : Rat) +
        (valUS fp : Rat) / (10 ^ (fp.filter Char.isDigit).length : Nat))
    else none
  | _ => none

/-- The exponent part after "e": optional sign and a digit run; returns
(negated?, magnitude). -/
def parseExpPart (ex : List Char) : Option (Bool × Nat) :=
  match ex with
  | '+' :: r => if digitsUS r then some (false, valUS r) else none
  | '-' :: r => if digitsUS r then some (true, valUS r) else none
  | _ => if digitsUS ex then some (false, valUS ex) else none

/-- A finite float numeral (already lower-cased, sign removed): mantissa with an
optional e-exponent. -/
def parseFiniteNumeral (l : List Char) : Option Rat :=
  match splitOnChar 'e' l with
  | [m] => parseMantissa m
  | [m, ex] =>
    match parseMantissa m, parseExpPart ex with
    | some q, some (eneg, ev) =>
      some (if eneg then q / (10 ^ ev : Nat) else q * (10 ^ ev : Nat))
    | _, _ => none
  | _ => none

/-- A Python float value as far as this embedding needs it: an exact rational
for finite values, or one of the non-finite IEEE values. -/
inductive PyFloatVal where
  | finite (q : Rat)
  | posInf
  | negInf
  | nan
deriving DecidableEq

/-- float(component): strip ASCII whitespace, lower-case, take an optional
sign, then a named non-finite or a finite numeral; none means float() raises
ValueError. -/
def parsePyFloat (l : List Char) : Option PyFloatVal :=
  let t := (((l.dropWhile isAsciiWs).reverse.dropWhile isAsciiWs).reverse).map
    Char.toLower
  match t with
  | '+' :: u => parsePySigned false u
  | '-' :: u => parsePySigned true u
  | u => parsePySigned false u
where
  parsePySigned (neg : Bool) (u : List Char) : Option PyFloatVal :=
    if u = ['i', 'n', 'f'] ∨ u = ['i', 'n', 'f', 'i', 'n', 'i', 't', 'y'] then
      some (if neg then .negInf else .posInf)
    else if u = ['n', 'a', 'n'] then some .nan
    else
      match parseFiniteNumeral u with
      | some q => some (.finite (if neg then -q else q))
      | none => none

/-- Python float division n / d: raises ZeroDivisionError exactly when the
denominator's value is (plus or minus) zero; otherwise inf and nan propagate by
the IEEE rules (finite/inf gives zero — the sign of an IEEE zero is not
tracked). -/
def pyDiv : PyFloatVal → PyFloatVal → Option PyFloatVal
  | .finite p, .finite q => if q = 0 then none else some (.finite (p / q))
  | .posInf, .finite q =>
    if q = 0 then none else some (if 0 < q then .posInf else .negInf)
  | .negInf, .finite q =>
    if q = 0 then none else some (if 0 < q then .negInf else .posInf)
  | .nan, .finite q => if q = 0 then none else some .nan
  | .finite _, .posInf => some (.finite 0)
  | .finite _, .negInf => some (.finite 0)
  | _, _ => some .nan

/-- The split-ratio parse in adjust_intraday_prices (spx_history.py lines
111-114): float(x.split("/")[0]) / float(x.split("/")[1]).  Indexing [1] into
the result of split raises IndexError when there is no "/"; float() raises
ValueError on a component that is not a float literal; the division raises
ZeroDivisionError on a zero-valued denominator.  none means the apply raises;
some v is the float the row's ratio becomes. -/
def parseRatioPy (x : String) : Option PyFloatVal :=
  match splitOnChar '/' x.data with
  | a :: b :: _ =>
    match parsePyFloat a, parsePyFloat b with
    | some va, some vb => pyDiv va vb
    | _, _ => none
  | _ => none

/-- The finite restriction of parseRatioPy used by the rational pipeline model:
some q exactly when the row's ratio parses without raising AND its value is
finite.  A non-finite ratio (an inf/nan component) does not raise in Python —
the code continues with IEEE non-finite arithmetic, which this rational
embedding does not represent; such tables are outside the model's domain and
are flagged separately in parseSplits below. -/
def parseRatio (x : String) : Option Rat :=
  match parseRatioPy x with
  | some (.finite q) => some q
  | _ => none

/-! ### Data model of adjust_intraday_prices (spx_history.py lines 94-156) -/

/-- One intraday bar (a row of intraday_df) after the datetime/date derivation of
lines 97-105: timestamp is the raw unix field, date is the US-Eastern calendar
date of the timestamp (the external timezone conversion of lines 100-104,
carried as data). -/
structure Bar where
  timestamp : Int
  date : Int
  open_ : Rat
  high : Rat
  low : Rat
  close : Rat
  volume : Rat
deriving DecidableEq

/-- One row of splits_df: the (already date-typed) effective date and the textual
ratio, e.g. "10.000000/1.000000". -/
structure SplitRow where
  date : Int
  split : String
deriving DecidableEq

/-- One row of div_df: recordDate (as a calendar date) and unadjustedValue. -/
structure DivRow where
  recordDate : Int
  unadjustedValue : Rat
deriving DecidableEq

/-- A bar after the split-adjustment pass (lines 107-133): prices divided and
volume multiplied by the merged cumulative split factor, which is kept as a
column. -/
structure SplitAdjBar where
  timestamp : Int
  date : Int
  open_ : Rat
  high : Rat
  low : Rat
  close : Rat
  volume : Rat
  cum_split_factor : Rat
deriving DecidableEq

/-- A fully adjusted bar (after lines 135-151): dividend-adjusted prices plus the
merged cumulative dividend column.  The cleanup drop of the two factor columns is
commented out in the source, so they stay. -/
structure AdjBar where
  timestamp : Int
  date : Int
  open_ : Rat
  high : Rat
  low : Rat
  close : Rat
  volume : Rat
  cum_split_factor : Rat
  cum_div : Rat
deriving DecidableEq

/-- sort_values("date") on a list of (date, value) rows (insertion sort by date;
the claims never involve duplicate event dates, where pandas' default sort kind
leaves the tie order unspecified). -/
def sortByDate (l : List (Int × Rat)) : List (Int × Rat) :=
  l.foldr insertRow []
where
  insertRow (p : Int × Rat) : List (Int × Rat) → List (Int × Rat)
    | [] => [p]
    | q :: t => if p.1 ≤ q.1 then p :: q :: t else q :: insertRow p t

/-- splits["ratio"][::-1].cumprod()[::-1] (line 121): each row paired with the
product of its own value and all later rows' values. -/
def suffixProdPairs : List (Int × Rat) → List (Int × Rat)
  | [] => []
  | (d, r) :: rest =>
    match suffixProdPairs rest with
    | [] => [(d, r)]
    | (d2, p) :: t => (d, r * p) :: (d2, p) :: t

/-- divs["unadjustedValue"][::-1].cumsum()[::-1] (line 140): each row paired with
the sum of its own value and all later rows' values. -/
def suffixSumPairs : List (Int × Rat) → List (Int × Rat)
  | [] => []
  | (d, v) :: rest =>
    match suffixSumPairs rest with
    | [] => [(d, v)]
    | (d2, p) :: t => (d, v + p) :: (d2, p) :: t

/-- df.merge(tbl, on="date", how="left") (lines 123-127 / 142-146): every left
row, in left order; a row with no date match gets one output row with a missing
value, a row with matches gets one output row per matching table row, in table
order. -/
def leftJoinOn (key : α → Int) (tbl : List (Int × Rat)) (rows : List α) :
    List (α × Option Rat) :=
  rows.flatMap fun r =>
    match tbl.filter (fun p => p.1 = key r) with
    | [] => [(r, none)]
    | ms => ms.map fun p => (r, some p.2)

/-- .ffill().fillna(default) (lines 129 / 148) over the merged column: a present
value is used and becomes the carry; a missing value takes the carry, or the
default when nothing has been seen yet. -/
def ffillWith (default : Rat) (carry : Option Rat) :
    List (α × Option Rat) → List (α × Rat)
  | [] => []
  | (a, v) :: rest =>
    match v with
    | some x => (a, x) :: ffillWith default (some x) rest
    | none => (a, carry.getD default) :: ffillWith default carry rest

/-- splits["split"].apply(parse) of lines 111-114 over the whole table: the
apply raises exactly when some row's ratio string fails to parse (the
"invalid split ratio" error).  When every row parses but some ratio is
non-finite (an inf/nan component), Python does NOT raise — it continues with
IEEE non-finite columns, which this rational pipeline cannot represent: that
case is flagged with a distinct marker error that no theorem equates with a
program failure; only tables whose ratios are all finite flow into the .ok
pipeline. -/
def parseSplits (splits : List SplitRow) : Except String (List (Int × Rat)) :=
  if splits.any (fun s => (parseRatioPy s.split).isNone) then
    .error "invalid split ratio"
  else if splits.all (fun s => (parseRatio s.split).isSome) then
    .ok (splits.map fun s => (s.date, (parseRatio s.split).getD 0))
  else .error "non-finite split ratio: outside the rational embedding"

/-- Lines 107-133: the split-adjustment pass.  splits_df coming from the API is a
DataFrame built from a record list, so an empty table has no columns and
splits["date"] (line 109) raises KeyError; a malformed ratio makes the apply of
lines 111-114 raise. -/
def splitStage (bars : List Bar) (splits : List SplitRow) :
    Except String (List SplitAdjBar) :=
  if splits.isEmpty then .error "KeyError: date"
  else
    match parseSplits splits with
    | .error e => .error e
    | .ok parsed =>
      let factors := suffixProdPairs (sortByDate parsed)
      let filled := ffillWith 1 none (leftJoinOn Bar.date factors bars)
      .ok (filled.map fun (b, f) =>
        ⟨b.timestamp, b.date, b.open_ / f, b.high / f, b.low / f, b.close / f,
         b.volume * f, f⟩)

/-- Lines 135-151: the dividend-adjustment pass over the split-adjusted rows.
An empty div_df has no columns, so divs["recordDate"] (line 137) raises
KeyError. -/
def divStage (rows : List SplitAdjBar) (divs : List DivRow) :
    Except String (List AdjBar) :=
  if divs.isEmpty then .error "KeyError: recordDate"
  else
    let sums := suffixSumPairs (sortByDate (divs.map fun d =>
      (d.recordDate, d.unadjustedValue)))
    let filled := ffillWith 0 none (leftJoinOn SplitAdjBar.date sums rows)
    .ok (filled.map fun (r, cd) =>
      ⟨r.timestamp, r.date, r.open_ - cd, r.high - cd, r.low - cd, r.close - cd,
       r.volume, r.cum_split_factor, cd⟩)

/-- adjust_intraday_prices (spx_history.py lines 94-156).  An empty intraday_df
has no columns, so df["timestamp"] (line 98) raises KeyError; then the split pass
and the dividend pass run in order. -/
def adjust_intraday_prices (bars : List Bar) (splits : List SplitRow)
    (divs : List DivRow) : Except String (List AdjBar) :=
  if bars.isEmpty then .error "KeyError: timestamp"
  else
    match splitStage bars splits with
    | .error e => .error e
    | .ok rows => divStage rows divs

/-! ### The intraday chunk loop (spx_history.py get_raw_intraday lines 60-80)

The loop's endpoints are datetime.date objects (download_intraday.py passes
dt.date(2021,1,1) and dt.date.today()), so its arithmetic is day-granular: s and
e below are dates counted in days.  current_start + dt.timedelta(days=100) adds
100 days, but current_end + dt.timedelta(seconds=1) (line 79) is a no-op on a
date — timedelta(seconds=1).days == 0 — so each iteration emits
(current_start, min(current_start + 100 days, end)) and the next iteration
restarts exactly at the emitted end, sharing the boundary date. -/

def raw_intraday_chunks (s e : Int) : List (Int × Int) :=
  if s < e then
    (s, min (s + 100) e) :: raw_intraday_chunks (min (s + 100) e) e
  else []
termination_by (e - s).toNat
decreasing_by
  have h2 : s + 1 ≤ min (s + 100) e := le_min (by omega) (by omega)
  omega

/-! ### The 5-minute fetch loop (eodhd_fetcher.py get_stock_intraday_history
lines 130-168)

The chunk-building loop (lines 137-149) advances by timedelta(minutes=5) = 300
seconds past each chunk end; the fetch loop (lines 151-168) then requests each
chunk in order and reacts to the payload shape. -/

def stock_history_chunks (s e : Int) : List (Int × Int) :=
  if s < e then
    (s, min (s + 8640000) e) :: stock_history_chunks (min (s + 8640000) e + 300) e
  else []
termination_by (e - s).toNat
decreasing_by
  have h1 : s < e := by assumption
  have h2 : s ≤ min (s + 8640000) e := le_min (by omega) (le_of_lt h1)
  omega

/-- The payload make_request hands back for one chunk: a JSON list of records
(record contents are opaque and stand in as Nat ids), a JSON dict, a raw text
body, or None. -/
inductive ApiData where
  | jlist (rows : List Nat)
  | jdict
  | text (s : String)
  | nothing
deriving DecidableEq

/-- Python's "needle in haystack" on strings: contiguous-substring containment,
via character lists. -/
def strContains (hay needle : String) : Bool :=
  decide (needle.data <:+: hay.data)

/-- The 'Valid API token' in data test of line 162. -/
def isTokenError : ApiData → Bool
  | .text s => strContains s "Valid API token"
  | _ => false

/-- The fetch loop of lines 151-168, instrumented with the list of chunks
actually requested: a list payload is extended into all_data, a dict or an
unrecognised string or None is skipped, and a string containing
"Valid API token" breaks out of the loop. -/
def fetchChunksLoop (f : Int × Int → ApiData) :
    List (Int × Int) → List (Int × Int) × List Nat
  | [] => ([], [])
  | c :: rest =>
    match f c with
    | .jlist rows =>
      let (is, ds) := fetchChunksLoop f rest
      (c :: is, rows ++ ds)
    | .text s =>
      if strContains s "Valid API token" then ([c], [])
      else
        let (is, ds) := fetchChunksLoop f rest
        (c :: is, ds)
    | _ =>
      let (is, ds) := fetchChunksLoop f rest
      (c :: is, ds)

/-- get_stock_intraday_history (lines 130-170): build the chunk list, run the
fetch loop, return the concatenated records. -/
def get_stock_intraday_history (f : Int × Int → ApiData) (s e : Int) : List Nat :=
  (fetchChunksLoop f (stock_history_chunks s e)).2

/-! ### download_data (spx_history.py lines 158-201)

The per-ticker body: skip when data/{kind}/{sym}.csv exists (the path is
injective in the symbol, so the filesystem is the list of symbols that have a
file); otherwise call the fetch function inside try, write the file when the
result is non-empty, raise AssertionError("0 rows returned") when it is empty,
and record any raised exception in failed_tickers.  A persistence (to_csv)
exception is modelled by the perr parameter. -/

/-- Outcome of fun_to_d(sym, start, end): a normal return with a row count, or a
raised exception with its message. -/
inductive FetchOutcome where
  | ok (rows : Nat)
  | raise (msg : String)
deriving DecidableEq

structure DLState where
  files : List String
  failed : List (String × String)
  calls : List String
deriving DecidableEq

/-- One iteration of the for-loop over tickers (lines 173-199). -/
def processTicker (fetch : String → FetchOutcome) (perr : String → Option String)
    (st : DLState) (sym : String) : DLState :=
  if sym ∈ st.files then st
  else
    let st1 : DLState := { st with calls := st.calls ++ [sym] }
    match fetch sym with
    | .raise msg => { st1 with failed := st1.failed ++ [(sym, msg)] }
    | .ok n =>
      if n ≠ 0 then
        match perr sym with
        | some e => { st1 with failed := st1.failed ++ [(sym, e)] }
        | none => { st1 with files := st1.files ++ [sym] }
      else { st1 with failed := st1.failed ++ [(sym, "0 rows returned")] }

/-- download_data over a ticker list, starting from the pre-existing files fs
(the failure map and the instrumented call list start empty). -/
def download_data (fetch : String → FetchOutcome) (perr : String → Option String)
    (tickers : List String) (fs : List String) : DLState :=
  tickers.foldl (processTicker fetch perr) ⟨fs, [], []⟩

/-- The reason download_data would record for a ticker that has no file yet:
none when the ticker succeeds (non-empty fetch, persistence ok). -/
def tickerFailReason (fetch : String → FetchOutcome) (perr : String → Option String)
    (sym : String) : Option String :=
  match fetch sym with
  | .raise msg => some msg
  | .ok 0 => some "0 rows returned"
  | .ok (_ + 1) => perr sym

/-! ### Characterisation of download_data -/

theorem processTicker_files_mem (f : String → FetchOutcome) (p : String → Option String)
    (st : DLState) (sym x : String) :
    x ∈ (processTicker f p st sym).files ↔
      x ∈ st.files ∨ (x = sym ∧ sym ∉ st.files ∧ tickerFailReason f p sym = none) := by
  unfold processTicker tickerFailReason
  by_cases hs : sym ∈ st.files
  · simp [hs]
  · simp only [if_neg hs]
    cases hf : f sym with
    | raise msg => simp [hs]
    | ok n =>
      match n with
      | 0 => simp [hs]
      | Nat.succ m =>
        cases hp : p sym with
        | some e => simp [hs, hp]
        | none => simp [hs, hp, List.mem_append]

theorem processTicker_failed_mem (f : String → FetchOutcome) (p : String → Option String)
    (st : DLState) (sym x r : String) :
    (x, r) ∈ (processTicker f p st sym).failed ↔
      (x, r) ∈ st.failed ∨
        (x = sym ∧ sym ∉ st.files ∧ tickerFailReason f p sym = some r) := by
  unfold processTicker tickerFailReason
  by_cases hs : sym ∈ st.files
  · simp [hs]
  · simp only [if_neg hs]
    cases hf : f sym with
    | raise msg => simp [hs, List.mem_append, eq_comm]
    | ok n =>
      match n with
      | 0 => simp [hs, List.mem_append, eq_comm]
      | Nat.succ m =>
        cases hp : p sym with
        | some e => simp [hs, hp, List.mem_append, eq_comm]
        | none => simp [hs, hp]

theorem processTicker_calls_mem (f : String → FetchOutcome) (p : String → Option String)
    (st : DLState) (sym x : String) :
    x ∈ (processTicker f p st sym).calls ↔
      x ∈ st.calls ∨ (x = sym ∧ sym ∉ st.files) := by
  unfold processTicker
  by_cases hs : sym ∈ st.files
  · simp [hs]
  · simp only [if_neg hs]
    cases hf : f sym with
    | raise msg => simp [hs, List.mem_append]
    | ok n =>
      match n with
      | 0 => simp [hs, List.mem_append]
      | Nat.succ m =>
        cases hp : p sym with
        | some e => simp [hs, hp, List.mem_append]
        | none => simp [hs, hp, List.mem_append]

theorem foldl_files_mem (f : String → FetchOutcome) (p : String → Option String) :
    ∀ (tickers : List String) (st : DLState) (x : String),
    x ∈ (tickers.foldl (processTicker f p) st).files ↔
      x ∈ st.files ∨ (x ∈ tickers ∧ x ∉ st.files ∧ tickerFailReason f p x = none) := by
  intro tickers
  induction tickers with
  | nil => simp
  | cons t rest ih =>
    intro st x
    simp only [List.foldl_cons, List.mem_cons]
    rw [ih, processTicker_files_mem]
    by_cases hxt : x = t
    · subst hxt; tauto
    · tauto

theorem foldl_failed_mem (f : String → FetchOutcome) (p : String → Option String) :
    ∀ (tickers : List String) (st : DLState) (x r : String),
    (x, r) ∈ (tickers.foldl (processTicker f p) st).failed ↔
      (x, r) ∈ st.failed ∨
        (x ∈ tickers ∧ x ∉ st.files ∧ tickerFailReason f p x = some r) := by
  intro tickers
  induction tickers with
  | nil => simp
  | cons t rest ih =>
    intro st x r
    simp only [List.foldl_cons, List.mem_cons]
    rw [ih, processTicker_failed_mem]
    by_cases hxt : x = t
    · subst hxt; rw [processTicker_files_mem]
      by_cases hr : tickerFailReason f p x = none <;> tauto
    · rw [processTicker_files_mem]; tauto

theorem foldl_calls_mem (f : String → FetchOutcome) (p : String → Option String) :
    ∀ (tickers : List String) (st : DLState) (x : String),
    x ∈ (tickers.foldl (processTicker f p) st).calls ↔
      x ∈ st.calls ∨ (x ∈ tickers ∧ x ∉ st.files) := by
  intro tickers
  induction tickers with
  | nil => simp
  | cons t rest ih =>
    intro st x
    simp only [List.foldl_cons, List.mem_cons]
    rw [ih, processTicker_calls_mem]
    by_cases hxt : x = t
    · subst hxt; rw [processTicker_files_mem]
      by_cases hr : tickerFailReason f p x = none <;> tauto
    · rw [processTicker_files_mem]; tauto

/-- C7 (amended): a ticker whose output file already exists is skipped without
invoking the fetch function; and when the first run records no failures, a
second run over the same ticker list and resulting output directory performs
zero fetch calls.  (Without that proviso the second-run part is false: a ticker
that failed leaves no file and is fetched again, see the counterexample.) -/
theorem c7_theorem :
    (∀ (f : String → FetchOutcome) (p : String → Option String)
       (tickers fs : List String) (sym : String), sym ∈ fs →
        sym ∉ (download_data f p tickers fs).calls) ∧
    (∀ (f : String → FetchOutcome) (p : String → Option String)
       (tickers fs : List String),
        (download_data f p tickers fs).failed = [] →
        (download_data f p tickers (download_data f p tickers fs).files).calls = []) := by
  constructor
  · intro f p tickers fs sym hfs
    unfold download_data
    rw [foldl_calls_mem]
    simp only [DLState.calls]
    rintro (h | ⟨-, hnot⟩)
    · simp at h
    · exact hnot hfs
  · intro f p tickers fs hfail
    rw [List.eq_nil_iff_forall_not_mem]
    intro x hx
    unfold download_data at hx
    rw [foldl_calls_mem] at hx
    simp only [DLState.calls, DLState.files, List.not_mem_nil, false_or] at hx
    obtain ⟨hxt, hxnf⟩ := hx
    apply hxnf
    rw [foldl_files_mem]
    simp only [DLState.files]
    by_cases hxs : x ∈ fs
    · exact Or.inl hxs
    · right
      refine ⟨hxt, hxs, ?_⟩
      by_cases hr : tickerFailReason f p x = none
      · exact hr
      · exfalso
        obtain ⟨r, hr'⟩ := Option.ne_none_iff_exists'.mp hr
        have : (x, r) ∈ (download_data f p tickers fs).failed := by
          unfold download_data
          rw [foldl_failed_mem]
          exact Or.inr ⟨hxt, hxs, hr'⟩
        rw [hfail] at this
        simp at this

/-- C7 witness: a ticker with an existing file is not fetched, and after a fully
successful run the rerun makes no fetch calls. -/
theorem c7_witness :
    ("A" ∉ (download_data (fun _ => FetchOutcome.ok 5) (fun _ => none)
        ["B"] ["A"]).calls) ∧
    (download_data (fun _ => FetchOutcome.ok 5) (fun _ => none) ["B"]
        (download_data (fun _ => FetchOutcome.ok 5) (fun _ => none) ["B"] []).files).calls
      = [] :=
  ⟨c7_theorem.1 _ _ ["B"] ["A"] "A" (by decide),
   c7_theorem.2 _ _ ["B"] [] (by decide)⟩

/-- C7 counterexample to the claim as stated: with a single ticker whose fetch
raises, the first run writes no file, so the second run over the same list and
directory performs one fetch call, not zero. -/
theorem c7_counterexample :
    (download_data (fun _ => FetchOutcome.raise "boom") (fun _ => none) ["A"]
        (download_data (fun _ => FetchOutcome.raise "boom") (fun _ => none)
          ["A"] []).files).calls = ["A"] ∧
    (["A"] : List String) ≠ [] := by
  constructor
  · decide
  · decide

/-- C8: a ticker with no pre-existing file whose fetch returns normally with
zero records is recorded in the failure map with reason "0 rows returned"
(the assert False of line 195, caught at line 197) and gets no output file. -/
theorem c8_theorem (f : String → FetchOutcome) (p : String → Option String)
    (tickers fs : List String) (sym : String)
    (h1 : sym ∈ tickers) (h2 : sym ∉ fs) (h3 : f sym = .ok 0) :
    (sym, "0 rows returned") ∈ (download_data f p tickers fs).failed ∧
      sym ∉ (download_data f p tickers fs).files := by
  have hr : tickerFailReason f p sym = some "0 rows returned" := by
    unfold tickerFailReason; rw [h3]
  constructor
  · unfold download_data
    rw [foldl_failed_mem]
    exact Or.inr ⟨h1, h2, hr⟩
  · unfold download_data
    rw [foldl_files_mem]
    simp only [DLState.files]
    rintro (h | ⟨-, -, hnone⟩)
    · exact h2 h
    · rw [hr] at hnone; simp at hnone

/-- C8 witness at a concrete run. -/
theorem c8_witness :
    ("A", "0 rows returned") ∈ (download_data (fun _ => FetchOutcome.ok 0)
        (fun _ => none) ["A"] []).failed ∧
      "A" ∉ (download_data (fun _ => FetchOutcome.ok 0)
        (fun _ => none) ["A"] []).files :=
  c8_theorem _ _ ["A"] [] "A" (by decide) (by decide) rfl

/-- C9: the returned failure map holds exactly the tickers that did not succeed:
a ticker (with no pre-existing file) appears iff its fetch raised, returned zero
rows, or its persistence raised; a ticker gains an output file iff it already had
one or succeeded, independently of every other ticker's outcome; and only listed
tickers ever appear in the map. -/
theorem c9_theorem (f : String → FetchOutcome) (p : String → Option String)
    (tickers fs : List String) (sym : String) :
    ((∃ r, (sym, r) ∈ (download_data f p tickers fs).failed) ↔
       (sym ∈ tickers ∧ sym ∉ fs ∧ tickerFailReason f p sym ≠ none)) ∧
    (sym ∈ (download_data f p tickers fs).files ↔
       (sym ∈ fs ∨ (sym ∈ tickers ∧ sym ∉ fs ∧ tickerFailReason f p sym = none))) ∧
    (∀ x r, (x, r) ∈ (download_data f p tickers fs).failed → x ∈ tickers) := by
  unfold download_data
  refine ⟨?_, ?_, ?_⟩
  · constructor
    · rintro ⟨r, hr⟩
      rw [foldl_failed_mem] at hr
      simp only [DLState.failed, DLState.files, List.not_mem_nil, false_or] at hr
      exact ⟨hr.1, hr.2.1, by rw [hr.2.2]; simp⟩
    · rintro ⟨h1, h2, h3⟩
      obtain ⟨r, hr⟩ := Option.ne_none_iff_exists'.mp h3
      refine ⟨r, ?_⟩
      rw [foldl_failed_mem]
      exact Or.inr ⟨h1, h2, hr⟩
  · rw [foldl_files_mem]
  · intro x r hx
    rw [foldl_failed_mem] at hx
    simp only [DLState.failed, DLState.files, List.not_mem_nil, false_or] at hx
    exact hx.1

/-- C9 witness: a raised fetch is recorded against exactly that ticker while the
neighbours still produce their files. -/
theorem c9_witness :
    (∃ r, ("B", r) ∈ (download_data
        (fun s => if s = "B" then FetchOutcome.raise "boom" else FetchOutcome.ok 3)
        (fun _ => none) ["A", "B", "C"] []).failed) ∧
    "A" ∈ (download_data
        (fun s => if s = "B" then FetchOutcome.raise "boom" else FetchOutcome.ok 3)
        (fun _ => none) ["A", "B", "C"] []).files :=
  ⟨((c9_theorem _ _ ["A", "B", "C"] [] "B").1).mpr ⟨by decide, by decide, by decide⟩,
   ((c9_theorem _ _ ["A", "B", "C"] [] "A").2.1).mpr (by decide)⟩

/-- C10: an output file appears only for tickers whose fetch returned a
non-empty result (or that already had one); a ticker whose fetch raises or
comes back empty gets no file and is therefore fetched again by a subsequent
run over the same list. -/
theorem c10_theorem (f : String → FetchOutcome) (p : String → Option String)
    (tickers fs : List String) (sym : String) :
    (sym ∈ (download_data f p tickers fs).files →
       sym ∈ fs ∨ (sym ∈ tickers ∧ ∃ n, f sym = .ok n ∧ n ≠ 0)) ∧
    (sym ∈ tickers → sym ∉ fs → tickerFailReason f p sym ≠ none →
       sym ∉ (download_data f p tickers fs).files ∧
       sym ∈ (download_data f p tickers
          (download_data f p tickers fs).files).calls) := by
  constructor
  · intro h
    unfold download_data at h
    rw [foldl_files_mem] at h
    simp only [DLState.files] at h
    rcases h with h | ⟨h1, -, h3⟩
    · exact Or.inl h
    · refine Or.inr ⟨h1, ?_⟩
      unfold tickerFailReason at h3
      rcases hf : f sym with rows | msg
      · rw [hf] at h3
        match rows, h3 with
        | Nat.succ m, _ => exact ⟨m + 1, rfl, by omega⟩
      · rw [hf] at h3; simp at h3
  · intro h1 h2 h3
    have hnf : sym ∉ (download_data f p tickers fs).files := by
      unfold download_data
      rw [foldl_files_mem]
      simp only [DLState.files]
      rintro (h | ⟨-, -, hnone⟩)
      · exact h2 h
      · exact h3 hnone
    refine ⟨hnf, ?_⟩
    unfold download_data
    rw [foldl_calls_mem]
    exact Or.inr ⟨h1, hnf⟩

/-- C10 witness: an always-raising fetch leaves no file and is fetched again on
the second run. -/
theorem c10_witness :
    "A" ∉ (download_data (fun _ => FetchOutcome.raise "boom") (fun _ => none)
        ["A"] []).files ∧
    "A" ∈ (download_data (fun _ => FetchOutcome.raise "boom") (fun _ => none)
        ["A"] (download_data (fun _ => FetchOutcome.raise "boom") (fun _ => none)
               ["A"] []).files).calls :=
  (c10_theorem (fun _ => FetchOutcome.raise "boom") (fun _ => none)
      ["A"] [] "A").2 (by decide) (by decide) (by decide)

/-! ### C6: credential-error abort in the chunked fetch loop -/

/-- C6: if the payload for the sub-range at position k is a text body containing
"Valid API token" (the invalid-credential marker of line 162) and no earlier
sub-range produced one, the loop requests exactly the first k+1 sub-ranges: the
failed sub-range is not retried and no later sub-range is requested. -/
theorem c6_theorem (f : Int × Int → ApiData) (chunks : List (Int × Int))
    (k : Nat) (ck : Int × Int)
    (hk : chunks.get? k = some ck)
    (htok : isTokenError (f ck) = true)
    (hbefore : ∀ c ∈ chunks.take k, isTokenError (f c) = false) :
    (fetchChunksLoop f chunks).1 = chunks.take (k + 1) := by
  induction chunks generalizing k with
  | nil => simp at hk
  | cons c rest ih =>
    match k with
    | 0 =>
      rw [List.get?_cons_zero, Option.some.injEq] at hk
      subst hk
      unfold fetchChunksLoop
      cases hfc : f c with
      | jlist rows => rw [hfc] at htok; simp [isTokenError] at htok
      | jdict => rw [hfc] at htok; simp [isTokenError] at htok
      | nothing => rw [hfc] at htok; simp [isTokenError] at htok
      | text s =>
        rw [hfc] at htok
        simp only [isTokenError] at htok
        simp [htok]
    | Nat.succ m =>
      have hc : isTokenError (f c) = false :=
        hbefore c (by simp [List.take_succ_cons])
      have hrest : (fetchChunksLoop f rest).1 = rest.take (m + 1) := by
        apply ih m
        · simpa using hk
        · intro x hx
          exact hbefore x (by simp [List.take_succ_cons, hx])
      unfold fetchChunksLoop
      cases hfc : f c with
      | jlist rows =>
        simp only [List.take_succ_cons]
        simpa using hrest
      | jdict =>
        simp only [List.take_succ_cons]
        simpa using hrest
      | nothing =>
        simp only [List.take_succ_cons]
        simpa using hrest
      | text s =>
        rw [hfc] at hc
        simp only [isTokenError] at hc
        simp only [List.take_succ_cons, hc]
        simpa [hc] using hrest

/-- C6 witness: with a token-error body on the second of three chunks, exactly
the first two chunks are requested. -/
theorem c6_witness :
    (fetchChunksLoop
      (fun c => if c = ((101 : Int), (201 : Int)) then
          ApiData.text "please use a Valid API token"
        else ApiData.jlist [7])
      [(0, 100), (101, 201), (202, 300)]).1 = [(0, 100), (101, 201)] :=
  c6_theorem _ [(0, 100), (101, 201), (202, 300)] 1 (101, 201) rfl (by decide)
    (by decide)

/-! ### C5: the date chunker -/

/-- The contract the date-endpoint chunk loop actually satisfies: a non-empty
ordered list of sub-ranges that starts at s, ends at e, stays inside [s, e]
with spans at most the window W, is contiguous in the boundary-sharing sense
(each next sub-range starts exactly at the previous end, since the one-second
advance of line 79 is a no-op on a date), overlaps only at those shared
boundary instants (previous end = next start, never beyond), and covers every
date of [s, e]. -/
def DateChunkContract (W s e : Int) (L : List (Int × Int)) : Prop :=
  L ≠ [] ∧
  L.head?.map Prod.fst = some s ∧
  L.getLast?.map Prod.snd = some e ∧
  (∀ p ∈ L, s ≤ p.1 ∧ p.1 < p.2 ∧ p.2 ≤ e ∧ p.2 - p.1 ≤ W) ∧
  L.Chain' (fun p q => q.1 = p.2) ∧
  L.Pairwise (fun p q => p.1 < q.1 ∧ p.2 ≤ q.1) ∧
  (∀ t : Int, s ≤ t → t ≤ e → ∃ p ∈ L, p.1 ≤ t ∧ t ≤ p.2)

theorem raw_intraday_chunks_eq (s e : Int) :
    raw_intraday_chunks s e =
      if s < e then
        (s, min (s + 100) e) :: raw_intraday_chunks (min (s + 100) e) e
      else [] := by
  rw [raw_intraday_chunks]

theorem raw_intraday_chunks_contract :
    ∀ (n : Nat) (s e : Int), (e - s).toNat ≤ n → s < e →
      DateChunkContract 100 s e (raw_intraday_chunks s e) := by
  intro n
  induction n with
  | zero => intro s e hn hlt; omega
  | succ n ih =>
    intro s e hn hlt
    rw [raw_intraday_chunks_eq, if_pos hlt]
    by_cases hcase : e ≤ s + 100
    · have hmin : min (s + 100) e = e := min_eq_right hcase
      rw [hmin, raw_intraday_chunks_eq, if_neg (by omega)]
      refine ⟨by simp, by simp, by simp, ?_, ?_, ?_, ?_⟩
      · intro p hp
        simp only [List.mem_singleton] at hp
        subst hp
        exact ⟨le_refl _, hlt, le_refl _, by omega⟩
      · exact List.chain'_singleton _
      · simp
      · intro t ht1 ht2
        exact ⟨(s, e), by simp, ht1, ht2⟩
    · have hmin : min (s + 100) e = s + 100 := min_eq_left (by omega)
      rw [hmin]
      have hlt2 : s + 100 < e := by omega
      have hT := ih (s + 100) e (by omega) hlt2
      rw [raw_intraday_chunks_eq] at hT ⊢
      obtain ⟨Tne, Thead, Tlast, Tbnd, Tchain, Tpair, Tcov⟩ := hT
      set T := (if s + 100 < e then
        (s + 100, min (s + 100 + 100) e) ::
          raw_intraday_chunks (min (s + 100 + 100) e) e
        else []) with hTdef
      refine ⟨by simp, by simp, ?_, ?_, ?_, ?_, ?_⟩
      · obtain ⟨t0, T', hT'⟩ := List.exists_cons_of_ne_nil Tne
        rw [hT', List.getLast?_cons_cons]
        rw [hT'] at Tlast
        exact Tlast
      · intro p hp
        rcases List.mem_cons.mp hp with h | h
        · subst h
          exact ⟨le_refl _, by omega, by omega, by omega⟩
        · obtain ⟨h1, h2, h3, h4⟩ := Tbnd p h
          exact ⟨by omega, h2, h3, h4⟩
      · apply List.chain'_cons'.mpr
        refine ⟨?_, Tchain⟩
        intro q hq
        have hmap : T.head?.map Prod.fst = some (s + 100) := Thead
        cases hTh : T.head? with
        | none => rw [hTh] at hq; simp at hq
        | some y =>
          rw [hTh] at hq hmap
          have h1 : y.1 = s + 100 := by simpa using hmap
          have h2 : y = q := by simpa using hq
          subst h2
          omega
      · apply List.pairwise_cons.mpr
        refine ⟨?_, Tpair⟩
        intro p hp
        have := (Tbnd p hp).1
        exact ⟨by omega, by omega⟩
      · intro t ht1 ht2
        by_cases htc : t ≤ s + 100
        · exact ⟨(s, s + 100), by simp, ht1, htc⟩
        · obtain ⟨p, hp, hp1, hp2⟩ := Tcov t (by omega) ht2
          exact ⟨p, List.mem_cons_of_mem _ hp, hp1, hp2⟩

/-- C5 (amended): for date endpoints start < end, the chunk loop of
get_raw_intraday produces a finite ordered list of sub-ranges spanning at most
the 100-day window each, starting at start, ending at end and covering all of
[start, end]; but the sub-ranges are NOT separated by the claimed one-second
increment: the timedelta(seconds=1) advance of line 79 is a no-op on
datetime.date endpoints, so each next sub-range starts exactly at the previous
sub-range's end and consecutive sub-ranges share that boundary instant (the
API's inclusive from/to fetches the boundary bar twice).  The loop still
terminates because every iteration moves the chunk end forward by
min(100 days, remaining range). -/
theorem c5_theorem (s e : Int) (h : s < e) :
    DateChunkContract 100 s e (raw_intraday_chunks s e) :=
  raw_intraday_chunks_contract (e - s).toNat s e (le_refl _) h

/-- C5 witness: 250 days, three chunks. -/
theorem c5_witness : DateChunkContract 100 0 250 (raw_intraday_chunks 0 250) :=
  c5_theorem 0 250 (by decide)

/-- C5 counterexample to the claim as stated: over a 200-day range the loop
produces two sub-ranges whose boundary coincides — the second starts exactly at
the first's end, not one increment after it, so the sub-ranges are neither
gapped by the increment nor non-overlapping (they share day 100). -/
theorem c5_counterexample :
    raw_intraday_chunks 0 200 = [(0, 100), (100, 200)] ∧
    ¬ ((100 : Int) = 100 + 1) ∧ ¬ ((100 : Int) < 100) := by
  refine ⟨?_, by decide, by decide⟩
  rw [raw_intraday_chunks_eq]
  norm_num
  rw [raw_intraday_chunks_eq]
  norm_num
  rw [raw_intraday_chunks_eq]
  norm_num

/-! ### C1/C2 machinery: single-event tables through merge and ffill -/

theorem leftJoinOn_single (key : α → Int) (Dv : Int × Rat) (rows : List α) :
    leftJoinOn key [Dv] rows =
      rows.map fun r => (r, if Dv.1 = key r then some Dv.2 else none) := by
  induction rows with
  | nil => rfl
  | cons r rs ih =>
    unfold leftJoinOn at ih ⊢
    rw [List.flatMap_cons, ih, List.map_cons]
    by_cases h : Dv.1 = key r
    · simp [List.filter_cons, h]
    · simp [List.filter_cons, h]

/-- The merged-then-filled per-row value for a single-event table: rows carry the
default until the first row whose key equals the event date, and the event value
from that row on. -/
def markedFactors (val dflt : Rat) (Dd : Int) (key : α → Int) (c : Bool) :
    List α → List (α × Rat)
  | [] => []
  | r :: rs =>
    (r, if c || decide (Dd = key r) then val else dflt) ::
      markedFactors val dflt Dd key (c || decide (Dd = key r)) rs

theorem ffillWith_cons_some (dflt : Rat) (carry : Option Rat) (a : α) (x : Rat)
    (rest : List (α × Option Rat)) :
    ffillWith dflt carry ((a, some x) :: rest) =
      (a, x) :: ffillWith dflt (some x) rest := rfl

theorem ffillWith_cons_none (dflt : Rat) (carry : Option Rat) (a : α)
    (rest : List (α × Option Rat)) :
    ffillWith dflt carry ((a, none) :: rest) =
      (a, carry.getD dflt) :: ffillWith dflt carry rest := rfl

theorem ffill_leftJoin_single (val dflt : Rat) (Dd : Int) (key : α → Int) :
    ∀ (rows : List α) (c : Bool),
    ffillWith dflt (if c then some val else none)
        (rows.map fun r => (r, if Dd = key r then some val else none)) =
      markedFactors val dflt Dd key c rows := by
  intro rows
  induction rows with
  | nil => intro c; rfl
  | cons r rs ih =>
    intro c
    rw [List.map_cons]
    by_cases h : Dd = key r
    · rw [if_pos h, ffillWith_cons_some, markedFactors]
      have hc : (c || decide (Dd = key r)) = true := by simp [h]
      have htail := ih true
      rw [if_pos rfl] at htail
      rw [htail, hc, if_pos rfl]
    · rw [if_neg h, ffillWith_cons_none, markedFactors]
      have hc : (c || decide (Dd = key r)) = c := by simp [h]
      rw [hc, ih c]
      cases c
      · rfl
      · rfl

theorem markedFactors_const (val : Rat) (Dd : Int) (key : α → Int) :
    ∀ (rows : List α) (c : Bool),
    markedFactors val val Dd key c rows = rows.map fun r => (r, val) := by
  intro rows
  induction rows with
  | nil => intro c; rfl
  | cons r rs ih =>
    intro c
    rw [markedFactors, ih, List.map_cons, ite_self]

theorem markedFactors_length (val dflt : Rat) (Dd : Int) (key : α → Int) :
    ∀ (rows : List α) (c : Bool),
    (markedFactors val dflt Dd key c rows).length = rows.length := by
  intro rows
  induction rows with
  | nil => intro c; rfl
  | cons r rs ih => intro c; rw [markedFactors]; simp [ih]

theorem markedFactors_get? (val dflt : Rat) (Dd : Int) (key : α → Int) :
    ∀ (rows : List α) (c : Bool) (i : Nat) (r : α), rows.get? i = some r →
    (markedFactors val dflt Dd key c rows).get? i =
      some (r, if c || (rows.take (i + 1)).any (fun x => decide (Dd = key x))
               then val else dflt) := by
  intro rows
  induction rows with
  | nil => intro c i r h; simp at h
  | cons x xs ih =>
    intro c i r h
    match i with
    | 0 =>
      rw [List.get?_cons_zero, Option.some.injEq] at h
      subst h
      rw [markedFactors]
      simp [List.take_succ_cons]
    | Nat.succ m =>
      rw [List.get?_cons_succ] at h
      rw [markedFactors, List.get?_cons_succ, ih _ m r h]
      simp [List.take_succ_cons, Bool.or_assoc]

theorem parseRatioPy_of_parseRatio (s : String) (q : Rat)
    (h : parseRatio s = some q) : parseRatioPy s = some (.finite q) := by
  unfold parseRatio at h
  cases hp : parseRatioPy s with
  | none => rw [hp] at h; simp at h
  | some v =>
    rw [hp] at h
    cases v with
    | finite r => simp_all
    | posInf => simp at h
    | negInf => simp at h
    | nan => simp at h

theorem splitStage_single (bars : List Bar) (D : Int) (sp : String) (R : Rat)
    (hp : parseRatio sp = some R) :
    splitStage bars [⟨D, sp⟩] =
      .ok ((markedFactors R 1 D Bar.date false bars).map fun (b, f) =>
        ⟨b.timestamp, b.date, b.open_ / f, b.high / f, b.low / f, b.close / f,
         b.volume * f, f⟩) := by
  have hpy := parseRatioPy_of_parseRatio sp R hp
  have hps : parseSplits [⟨D, sp⟩] = .ok [(D, R)] := by
    simp [parseSplits, hpy, hp]
  have hfill : ffillWith 1 none
      (bars.map fun b => (b, if D = Bar.date b then some R else none)) =
      markedFactors R 1 D Bar.date false bars := by
    have h := ffill_leftJoin_single R 1 D Bar.date bars false
    simpa using h
  simp only [splitStage, List.isEmpty_cons, Bool.false_eq_true, if_false, hps]
  rw [show sortByDate [(D, R)] = [(D, R)] from rfl]
  rw [show suffixProdPairs [(D, R)] = [(D, R)] from rfl]
  rw [leftJoinOn_single]
  simp only []
  rw [hfill]

theorem divStage_single (rows : List SplitAdjBar) (Dd : Int) (V : Rat) :
    divStage rows [⟨Dd, V⟩] =
      .ok ((markedFactors V 0 Dd SplitAdjBar.date false rows).map fun (r, cd) =>
        ⟨r.timestamp, r.date, r.open_ - cd, r.high - cd, r.low - cd, r.close - cd,
         r.volume, r.cum_split_factor, cd⟩) := by
  have hfill : ffillWith 0 none
      (rows.map fun r => (r, if Dd = SplitAdjBar.date r then some V else none)) =
      markedFactors V 0 Dd SplitAdjBar.date false rows := by
    have h := ffill_leftJoin_single V 0 Dd SplitAdjBar.date rows false
    simpa using h
  simp only [divStage, List.isEmpty_cons, Bool.false_eq_true, if_false]
  rw [show List.map (fun d => (DivRow.recordDate d, DivRow.unadjustedValue d))
        [(⟨Dd, V⟩ : DivRow)] = [(Dd, V)] from rfl]
  rw [show sortByDate [(Dd, V)] = [(Dd, V)] from rfl]
  rw [show suffixSumPairs [(Dd, V)] = [(Dd, V)] from rfl]
  rw [leftJoinOn_single]
  simp only []
  rw [hfill]

/-- C1 (amended): with a single split of ratio R on date D (and a neutral
dividend table, one zero-value dividend), a bar is adjusted if and only if some
bar at its position or earlier carries calendar date exactly D: those bars get
open/high/low/close divided by R and volume multiplied by R, all other bars —
in particular every bar strictly before D in a date-sorted series — are
returned unchanged with factor 1.  This is the reverse of the claimed
direction: the merge-then-ffill of lines 123-129 propagates the factor forward
from the split date, not backward onto earlier bars. -/
theorem c1_theorem (bars : List Bar) (D d0 : Int) (sp : String) (R : Rat)
    (hp : parseRatio sp = some R) (hb : bars ≠ []) :
    ∃ l, adjust_intraday_prices bars [⟨D, sp⟩] [⟨d0, 0⟩] = .ok l ∧
      l.length = bars.length ∧
      ∀ (i : Nat) (b : Bar), bars.get? i = some b →
        l.get? i = some (
          if (bars.take (i + 1)).any (fun x => decide (D = x.date)) then
            ⟨b.timestamp, b.date, b.open_ / R, b.high / R, b.low / R, b.close / R,
             b.volume * R, R, 0⟩
          else ⟨b.timestamp, b.date, b.open_, b.high, b.low, b.close, b.volume,
             1, 0⟩) := by
  have hsplit := splitStage_single bars D sp R hp
  have hdiv := divStage_single
    ((markedFactors R 1 D Bar.date false bars).map fun (b, f) =>
      ⟨b.timestamp, b.date, b.open_ / f, b.high / f, b.low / f, b.close / f,
       b.volume * f, f⟩) d0 0
  rw [markedFactors_const] at hdiv
  have hadj : adjust_intraday_prices bars [⟨D, sp⟩] [⟨d0, 0⟩] =
      .ok (((((markedFactors R 1 D Bar.date false bars).map fun (b, f) =>
          (⟨b.timestamp, b.date, b.open_ / f, b.high / f, b.low / f, b.close / f,
           b.volume * f, f⟩ : SplitAdjBar)).map fun r => (r, (0 : Rat))).map
            fun (r, cd) =>
          (⟨r.timestamp, r.date, r.open_ - cd, r.high - cd, r.low - cd,
           r.close - cd, r.volume, r.cum_split_factor, cd⟩ : AdjBar))) := by
    unfold adjust_intraday_prices
    rw [if_neg (by simpa using hb), hsplit]
    exact hdiv
  refine ⟨_, hadj, ?_, ?_⟩
  · simp [markedFactors_length]
  · intro i b hib
    rw [List.get?_map, List.get?_map, List.get?_map,
      markedFactors_get? R 1 D Bar.date bars false i b hib]
    simp only [Option.map_some', Bool.false_or]
    by_cases hcond :
        (bars.take (i + 1)).any (fun x => decide (D = x.date)) = true
    · rw [hcond]
      simp
    · rw [Bool.not_eq_true] at hcond
      rw [hcond]
      simp

/-- C1 witness: the spec's own example series (bars dated 2024-06-01 and
2024-06-10, one 10-for-1 split dated 2024-06-07). -/
theorem c1_witness :
    ∃ l, adjust_intraday_prices
        [⟨1717243800, 20240601, 100, 100, 100, 100, 1000⟩,
         ⟨1718021400, 20240610, 50, 50, 50, 50, 2000⟩]
        [⟨20240607, "10.000000/1.000000"⟩] [⟨19700105, 0⟩] = .ok l ∧
      l.length = ([⟨1717243800, 20240601, 100, 100, 100, 100, 1000⟩,
         ⟨1718021400, 20240610, 50, 50, 50, 50, 2000⟩] : List Bar).length ∧
      ∀ (i : Nat) (b : Bar),
        ([⟨1717243800, 20240601, 100, 100, 100, 100, 1000⟩,
          ⟨1718021400, 20240610, 50, 50, 50, 50, 2000⟩] : List Bar).get? i
            = some b →
        l.get? i = some (
          if (([⟨1717243800, 20240601, 100, 100, 100, 100, 1000⟩,
                ⟨1718021400, 20240610, 50, 50, 50, 50, 2000⟩] : List Bar).take
                  (i + 1)).any (fun x => decide ((20240607 : Int) = x.date)) then
            ⟨b.timestamp, b.date, b.open_ / 10, b.high / 10, b.low / 10,
             b.close / 10, b.volume * 10, 10, 0⟩
          else ⟨b.timestamp, b.date, b.open_, b.high, b.low, b.close, b.volume,
             1, 0⟩) :=
  c1_theorem
    [⟨1717243800, 20240601, 100, 100, 100, 100, 1000⟩,
     ⟨1718021400, 20240610, 50, 50, 50, 50, 2000⟩]
    20240607 19700105 "10.000000/1.000000" 10
    (by simp [parseRatio, parseRatioPy, splitOnChar, parsePyFloat,
      parsePyFloat.parsePySigned, parseFiniteNumeral, parseMantissa,
      parseExpPart, digitsUS, valUS, digitsToNat, isAsciiWs, pyDiv,
      List.dropWhile, Char.toLower])
    (by simp)

/-- C1 counterexample to the claim as stated, on the spec's example extended
with a bar on the split date: the bar dated 2024-06-01 (strictly before the
split) keeps close 100 instead of the claimed 100/10, while the bars dated
2024-06-07 and 2024-06-10 (on/after the split, claimed unchanged) are divided
to 8 and 5. -/
theorem c1_counterexample :
    (adjust_intraday_prices
        [⟨1717243800, 20240601, 100, 100, 100, 100, 1000⟩,
         ⟨1717762200, 20240607, 80, 80, 80, 80, 1500⟩,
         ⟨1718021400, 20240610, 50, 50, 50, 50, 2000⟩]
        [⟨20240607, "10.000000/1.000000"⟩] [⟨19700105, 0⟩]).map
      (fun l => l.map AdjBar.close) = .ok [100, 8, 5] ∧
    ¬ ((100 : Rat) = 100 / 10) ∧ ¬ ((8 : Rat) = 80) := by
  refine ⟨?_, by norm_num, by norm_num⟩
  simp [adjust_intraday_prices, splitStage, divStage, parseSplits,
    parseRatio, parseRatioPy, splitOnChar, parsePyFloat,
      parsePyFloat.parsePySigned, parseFiniteNumeral, parseMantissa,
      parseExpPart, digitsUS, valUS, digitsToNat, isAsciiWs, pyDiv,
      List.dropWhile, Char.toLower, sortByDate,
    sortByDate.insertRow, suffixProdPairs, suffixSumPairs, leftJoinOn,
    ffillWith, List.filter_cons, Except.map]
  norm_num

theorem any_map_comp (g : α → β) (p : β → Bool) :
    ∀ l : List α, (l.map g).any p = l.any (fun x => p (g x)) := by
  intro l
  induction l with
  | nil => rfl
  | cons a t ih => simp [ih]

/-- C2 (amended): with a single dividend of value V recorded on date D (and a
neutral split table, one ratio-1 split), a bar has V subtracted from
open/high/low/close (volume untouched) if and only if some bar at its position
or earlier carries calendar date exactly D; all other bars — in particular
every bar strictly before D in a date-sorted series — are returned unchanged.
This is the reverse of the claimed direction, for the same ffill reason as the
split factor. -/
theorem c2_theorem (bars : List Bar) (D d1 : Int) (sp : String) (V : Rat)
    (hp : parseRatio sp = some 1) (hb : bars ≠ []) :
    ∃ l, adjust_intraday_prices bars [⟨d1, sp⟩] [⟨D, V⟩] = .ok l ∧
      l.length = bars.length ∧
      ∀ (i : Nat) (b : Bar), bars.get? i = some b →
        l.get? i = some (
          if (bars.take (i + 1)).any (fun x => decide (D = x.date)) then
            ⟨b.timestamp, b.date, b.open_ - V, b.high - V, b.low - V,
             b.close - V, b.volume, 1, V⟩
          else ⟨b.timestamp, b.date, b.open_, b.high, b.low, b.close, b.volume,
             1, 0⟩) := by
  have hsplit := splitStage_single bars d1 sp 1 hp
  rw [markedFactors_const] at hsplit
  have hdiv := divStage_single
    (bars.map fun b =>
      (⟨b.timestamp, b.date, b.open_ / 1, b.high / 1, b.low / 1, b.close / 1,
       b.volume * 1, 1⟩ : SplitAdjBar)) D V
  have hadj : adjust_intraday_prices bars [⟨d1, sp⟩] [⟨D, V⟩] =
      .ok ((markedFactors V 0 D SplitAdjBar.date false
          (bars.map fun b =>
            (⟨b.timestamp, b.date, b.open_ / 1, b.high / 1, b.low / 1,
             b.close / 1, b.volume * 1, 1⟩ : SplitAdjBar))).map fun (r, cd) =>
        (⟨r.timestamp, r.date, r.open_ - cd, r.high - cd, r.low - cd,
         r.close - cd, r.volume, r.cum_split_factor, cd⟩ : AdjBar)) := by
    unfold adjust_intraday_prices
    rw [if_neg (by simpa using hb)]
    rw [show splitStage bars [⟨d1, sp⟩] =
        .ok (bars.map fun b =>
          (⟨b.timestamp, b.date, b.open_ / 1, b.high / 1, b.low / 1,
           b.close / 1, b.volume * 1, 1⟩ : SplitAdjBar)) from by
      rw [hsplit, List.map_map]; rfl]
    exact hdiv
  refine ⟨_, hadj, ?_, ?_⟩
  · simp [markedFactors_length]
  · intro i b hib
    have hib2 : (bars.map fun b =>
        (⟨b.timestamp, b.date, b.open_ / 1, b.high / 1, b.low / 1, b.close / 1,
         b.volume * 1, 1⟩ : SplitAdjBar)).get? i = some
          (⟨b.timestamp, b.date, b.open_ / 1, b.high / 1, b.low / 1,
           b.close / 1, b.volume * 1, 1⟩ : SplitAdjBar) := by
      rw [List.get?_map, hib]; rfl
    rw [List.get?_map,
      markedFactors_get? V 0 D SplitAdjBar.date _ false i _ hib2]
    simp only [Option.map_some', Bool.false_or]
    have htake : ((bars.map fun b =>
        (⟨b.timestamp, b.date, b.open_ / 1, b.high / 1, b.low / 1, b.close / 1,
         b.volume * 1, 1⟩ : SplitAdjBar)).take (i + 1)).any
          (fun x => decide (D = SplitAdjBar.date x)) =
        (bars.take (i + 1)).any (fun x => decide (D = x.date)) := by
      rw [← List.map_take, any_map_comp]
    rw [htake]
    by_cases hcond :
        (bars.take (i + 1)).any (fun x => decide (D = x.date)) = true
    · rw [hcond]
      simp
    · rw [Bool.not_eq_true] at hcond
      rw [hcond]
      simp

/-- C2 witness: one 5-unit dividend recorded 2024-06-07 over the two-bar
series. -/
theorem c2_witness :
    ∃ l, adjust_intraday_prices
        [⟨1717243800, 20240601, 100, 100, 100, 100, 1000⟩,
         ⟨1718021400, 20240610, 50, 50, 50, 50, 2000⟩]
        [⟨19700105, "1.000000/1.000000"⟩] [⟨20240607, 5⟩] = .ok l ∧
      l.length = ([⟨1717243800, 20240601, 100, 100, 100, 100, 1000⟩,
         ⟨1718021400, 20240610, 50, 50, 50, 50, 2000⟩] : List Bar).length ∧
      ∀ (i : Nat) (b : Bar),
        ([⟨1717243800, 20240601, 100, 100, 100, 100, 1000⟩,
          ⟨1718021400, 20240610, 50, 50, 50, 50, 2000⟩] : List Bar).get? i
            = some b →
        l.get? i = some (
          if (([⟨1717243800, 20240601, 100, 100, 100, 100, 1000⟩,
                ⟨1718021400, 20240610, 50, 50, 50, 50, 2000⟩] : List Bar).take
                  (i + 1)).any (fun x => decide ((20240607 : Int) = x.date)) then
            ⟨b.timestamp, b.date, b.open_ - 5, b.high - 5, b.low - 5,
             b.close - 5, b.volume, 1, 5⟩
          else ⟨b.timestamp, b.date, b.open_, b.high, b.low, b.close, b.volume,
             1, 0⟩) :=
  c2_theorem
    [⟨1717243800, 20240601, 100, 100, 100, 100, 1000⟩,
     ⟨1718021400, 20240610, 50, 50, 50, 50, 2000⟩]
    20240607 19700105 "1.000000/1.000000" 5
    (by simp [parseRatio, parseRatioPy, splitOnChar, parsePyFloat,
      parsePyFloat.parsePySigned, parseFiniteNumeral, parseMantissa,
      parseExpPart, digitsUS, valUS, digitsToNat, isAsciiWs, pyDiv,
      List.dropWhile, Char.toLower])
    (by simp)

/-- C2 counterexample to the claim as stated: with one 5-unit dividend recorded
2024-06-07, the bar dated 2024-06-01 (strictly before D) keeps close 100
instead of the claimed 100 - 5 = 95, while the bars dated 2024-06-07 and
2024-06-10 (on/after D, claimed unchanged) are reduced to 75 and 45. -/
theorem c2_counterexample :
    (adjust_intraday_prices
        [⟨1717243800, 20240601, 100, 100, 100, 100, 1000⟩,
         ⟨1717762200, 20240607, 80, 80, 80, 80, 1500⟩,
         ⟨1718021400, 20240610, 50, 50, 50, 50, 2000⟩]
        [⟨19700105, "1.000000/1.000000"⟩] [⟨20240607, 5⟩]).map
      (fun l => l.map AdjBar.close) = .ok [100, 75, 45] ∧
    ¬ ((100 : Rat) = 100 - 5) ∧ ¬ ((75 : Rat) = 80) := by
  refine ⟨?_, by norm_num, by norm_num⟩
  simp [adjust_intraday_prices, splitStage, divStage, parseSplits,
    parseRatio, parseRatioPy, splitOnChar, parsePyFloat,
      parsePyFloat.parsePySigned, parseFiniteNumeral, parseMantissa,
      parseExpPart, digitsUS, valUS, digitsToNat, isAsciiWs, pyDiv,
      List.dropWhile, Char.toLower, sortByDate,
    sortByDate.insertRow, suffixProdPairs, suffixSumPairs, leftJoinOn,
    ffillWith, List.filter_cons, Except.map]
  norm_num

/-- C3: adjust_intraday_prices fails on empty split and dividend tables instead
of returning the series unchanged: a DataFrame built from an empty record list
has no columns, so line 109 (splits["date"], or line 98 df["timestamp"] for an
empty bar table) raises KeyError. -/
theorem c3_theorem (bars : List Bar) :
    ∃ msg, adjust_intraday_prices bars [] [] = .error msg := by
  cases bars with
  | nil => exact ⟨"KeyError: timestamp", rfl⟩
  | cons b bs => exact ⟨"KeyError: date", rfl⟩

/-! ### C4: which ratio strings make the adjustment fail -/

theorem parseSplits_error_of_mem (splits : List SplitRow) (sp : SplitRow)
    (h1 : sp ∈ splits) (h2 : parseRatioPy sp.split = none) :
    parseSplits splits = .error "invalid split ratio" := by
  unfold parseSplits
  rw [if_pos]
  rw [List.any_eq_true]
  exact ⟨sp, h1, by rw [h2]; rfl⟩

/-- C4 (amended): a ratio string with no "/" at all makes the parse (and hence
the adjustment for that ticker) fail, via the IndexError of x.split("/")[1];
but a ratio string with more than one "/" does not by itself fail: the first
two "/"-separated components are used and the rest ignored.  Parsing fails
exactly when float() rejects the first or second component or the denominator's
value is zero (ZeroDivisionError); components in any form float() accepts —
with exponents, grouping underscores, padding whitespace, inf or nan — do not
cause failure. -/
theorem c4_theorem :
    (∀ (s : String) (a : List Char), splitOnChar '/' s.data = [a] →
       parseRatioPy s = none) ∧
    (∀ (s : String) (a b : List Char) (rest : List (List Char))
       (va vb v : PyFloatVal),
       splitOnChar '/' s.data = a :: b :: rest → parsePyFloat a = some va →
       parsePyFloat b = some vb → pyDiv va vb = some v →
       parseRatioPy s = some v) ∧
    (∀ (s : String) (a b : List Char) (rest : List (List Char)),
       splitOnChar '/' s.data = a :: b :: rest →
       parsePyFloat a = none ∨ parsePyFloat b = none →
       parseRatioPy s = none) ∧
    (∀ (s : String) (a b : List Char) (rest : List (List Char))
       (va : PyFloatVal),
       splitOnChar '/' s.data = a :: b :: rest → parsePyFloat a = some va →
       parsePyFloat b = some (.finite 0) →
       parseRatioPy s = none) ∧
    (∀ (bars : List Bar) (splits : List SplitRow) (divs : List DivRow)
       (sp : SplitRow), sp ∈ splits → parseRatioPy sp.split = none →
       bars ≠ [] →
       adjust_intraday_prices bars splits divs =
         .error "invalid split ratio") := by
  refine ⟨?_, ?_, ?_, ?_, ?_⟩
  · intro s a h
    simp [parseRatioPy, h]
  · intro s a b rest va vb v h ha hb hdiv
    simp [parseRatioPy, h, ha, hb, hdiv]
  · intro s a b rest h hab
    rcases hab with ha | hb
    · simp [parseRatioPy, h, ha]
    · cases hpa : parsePyFloat a <;> simp [parseRatioPy, h, hpa, hb]
  · intro s a b rest va h ha hb
    have hz : pyDiv va (.finite 0) = none := by
      cases va <;> simp [pyDiv]
    simp [parseRatioPy, h, ha, hb, hz]
  · intro bars splits divs sp hmem hnone hb
    have hps := parseSplits_error_of_mem splits sp hmem hnone
    have hsne : splits ≠ [] := by
      intro h
      rw [h] at hmem
      simp at hmem
    unfold adjust_intraday_prices splitStage
    rw [if_neg (by simpa using hb),
      if_neg (by simpa [List.isEmpty_iff] using hsne), hps]

/-- C4 witness: a slash-free string fails; an exponent-form component is a
valid float, so a two-slash string around it still parses, to the quotient of
the first two components. -/
theorem c4_witness :
    parseRatioPy "10.0" = none ∧
    parseRatioPy "2e0/1.0" = some (.finite 2) ∧
    parseRatioPy "7.0/2.0/9.0" = some (.finite (7 / 2)) := by
  refine ⟨?_, ?_, ?_⟩
  · exact c4_theorem.1 "10.0" "10.0".data (by decide)
  · exact c4_theorem.2.1 "2e0/1.0" "2e0".data "1.0".data [] (.finite 2)
      (.finite 1) (.finite 2) (by decide)
      (by simp [parsePyFloat, parsePyFloat.parsePySigned, parseFiniteNumeral,
        parseMantissa, parseExpPart, digitsUS, valUS, digitsToNat, isAsciiWs,
        splitOnChar, List.dropWhile, Char.toLower])
      (by simp [parsePyFloat, parsePyFloat.parsePySigned, parseFiniteNumeral,
        parseMantissa, parseExpPart, digitsUS, valUS, digitsToNat, isAsciiWs,
        splitOnChar, List.dropWhile, Char.toLower])
      (by simp [pyDiv])
  · exact c4_theorem.2.1 "7.0/2.0/9.0" "7.0".data "2.0".data ["9.0".data]
      (.finite 7) (.finite 2) (.finite (7 / 2)) (by decide)
      (by simp [parsePyFloat, parsePyFloat.parsePySigned, parseFiniteNumeral,
        parseMantissa, parseExpPart, digitsUS, valUS, digitsToNat, isAsciiWs,
        splitOnChar, List.dropWhile, Char.toLower])
      (by simp [parsePyFloat, parsePyFloat.parsePySigned, parseFiniteNumeral,
        parseMantissa, parseExpPart, digitsUS, valUS, digitsToNat, isAsciiWs,
        splitOnChar, List.dropWhile, Char.toLower])
      (by simp [pyDiv])

/-- C4 counterexample to the claim as stated: a ratio string with two "/"
characters (so not exactly one) does not make the adjustment fail. -/
theorem c4_counterexample :
    (splitOnChar '/' "10.000000/1.000000/2.000000".data).length ≠ 2 ∧
    (adjust_intraday_prices [⟨1717243800, 20240601, 100, 100, 100, 100, 1000⟩]
        [⟨20240607, "10.000000/1.000000/2.000000"⟩] [⟨19700105, 0⟩]).isOk
      = true := by
  constructor
  · decide
  · simp [adjust_intraday_prices, splitStage, divStage, parseSplits,
      parseRatio, parseRatioPy, splitOnChar, parsePyFloat,
      parsePyFloat.parsePySigned, parseFiniteNumeral, parseMantissa,
      parseExpPart, digitsUS, valUS, digitsToNat, isAsciiWs, pyDiv,
      List.dropWhile, Char.toLower, sortByDate,
      sortByDate.insertRow, suffixProdPairs, suffixSumPairs, leftJoinOn,
      ffillWith, List.filter_cons, Except.isOk, Except.toBool]
